import Mathlib

/-!
Verification of the Dividend Hunter backend (`main.py`) against its
natural-language specification.

The embedding translates the pure core of the program:
- the DividendHistory analyzer (`calculate_dividend_growth`,
  `calculate_consecutive_years`) over lists of dividend events,
- the scoring engine (`calculate_safety_score`, `calculate_rank_score`),
- the per-record stored dividend history (`dividends.tail(400)`),
- the snapshot cache read path (`load_cached_snapshot`,
  `get_dividend_stocks`, `apply_filters_and_sort`), and
- the refresh commit step (`refresh_data_background` deciding whether to
  call `save_snapshot`, which replaces the snapshot and appends capped
  per-ticker historical points).

Timestamps are modelled as rationals measured in hours; Python floats are
modelled as real/rational numbers; Python dict-shaped stock records are
modelled as association lists from field name to a value that is either a
number or a string, matching the dynamic `x.get(sort_by, 0)` access used
by the sorting code.
-/

namespace DividendHunter

/-- A dynamically-typed field value of a stock record (Python dict value). -/
inductive Val where
  | num (q : ℚ)
  | str (s : String)
deriving DecidableEq

/-- A stock record: the Python dict produced by `calculate_dividend_metrics`,
as an association list from field name to value. -/
abbrev StockRec := List (String × Val)

/-- Field lookup, `r.get(k)` (first binding wins, like a dict read). -/
def getField (r : StockRec) (k : String) : Option Val :=
  r.lookup k

/-- Numeric field read: `some q` when the field is present and numeric. -/
def numField (r : StockRec) (k : String) : Option ℚ :=
  match getField r k with
  | some (Val.num q) => some q
  | _ => none

/-- String field read: `some s` when the field is present and a string. -/
def strField (r : StockRec) (k : String) : Option String :=
  match getField r k with
  | some (Val.str s) => some s
  | _ => none

/-- Python truthiness of a value: `0`, `0.0` and `""` are falsy. -/
def falsyVal : Val → Bool
  | Val.num q => q == 0
  | Val.str s => s == ""

/-- The sort key used by `apply_filters_and_sort`:
`x.get(sort_by, 0) or 0` — a missing field defaults to `0`, and a falsy
value is also replaced by `0`. -/
def sortKeyVal (sort_by : String) (r : StockRec) : Val :=
  let v := (getField r sort_by).getD (Val.num 0)
  if falsyVal v then Val.num 0 else v

/-- Comparison of dynamic values. Numbers compare numerically and strings
lexicographically as in Python; a number/string pair is incomparable in
Python (the sort would raise), and here is ordered number-first so that the
function is total — the sortedness theorems assume a homogeneous key column,
which is exactly when the Python sort is defined. -/
def vle : Val → Val → Bool
  | Val.num a, Val.num b => a ≤ b
  | Val.str a, Val.str b => a ≤ b
  | Val.num _, Val.str _ => true
  | Val.str _, Val.num _ => false

/-- A dividend event: payment date (day ordinal), the calendar year that
date falls in, and the payment amount. -/
structure DivEvent where
  date : ℤ
  year : ℤ
  amount : ℚ
deriving DecidableEq

/-- `l[-n:]` — the last `n` elements of a list, in order. -/
def takeLast {α : Type} (n : ℕ) (l : List α) : List α :=
  l.drop (l.length - n)

/-- The stored `dividendHistory` of a record: built from
`dividends.tail(400)`, i.e. the last 400 events of the provider series in
the series' own (date-ascending) order, each kept as a (date, amount) pair. -/
def dividend_history (dividends : List DivEvent) : List (ℤ × ℚ) :=
  (takeLast 400 dividends).map (fun e => (e.date, e.amount))

/-- The distinct calendar years of a dividend series, sorted ascending —
the index of `dividends.groupby(dividends.index.year).sum()`. -/
def sortedYears (dividends : List DivEvent) : List ℤ :=
  List.insertionSort (· ≤ ·) ((dividends.map DivEvent.year).dedup)

/-- `dividends.groupby(dividends.index.year).sum()`: per-year totals keyed
by year, with years ascending (pandas sorts the group keys). -/
def yearlySums (dividends : List DivEvent) : List (ℤ × ℚ) :=
  (sortedYears dividends).map
    (fun y => (y, ((dividends.filter (fun e => decide (e.year = y))).map DivEvent.amount).sum))

/-- `calculate_dividend_growth`: CAGR of yearly dividend totals over the
most recent at-most-5 years, as in the source. -/
noncomputable def calculate_dividend_growth (dividends : List DivEvent) : ℝ :=
  if dividends.length < 4 then 0
  else
    let dividends_by_year := yearlySums dividends
    if dividends_by_year.length < 2 then 0
    else
      let recent_years := takeLast 5 dividends_by_year
      let start_value : ℚ := (recent_years.headD (0, 0)).2
      let end_value : ℚ := (recent_years.getLastD (0, 0)).2
      let years : ℕ := recent_years.length - 1
      if start_value ≤ 0 ∨ years = 0 then 0
      else (((end_value : ℝ) / (start_value : ℝ)) ^ ((1 : ℝ) / (years : ℝ)) - 1) * 100

/-- The walk of `calculate_consecutive_years`: given the previously examined
year and the remaining (descending) years, count how many further years
each sit exactly one below their predecessor, stopping at the first gap. -/
def consecRun : ℤ → List ℤ → ℕ
  | _, [] => 0
  | prev, y :: ys => if prev - y = 1 then 1 + consecRun y ys else 0

/-- `calculate_consecutive_years`: years with payments, sorted descending;
the first year counts 1 and the count grows while consecutive. -/
def calculate_consecutive_years (dividends : List DivEvent) : ℕ :=
  if dividends.isEmpty then 0
  else
    match (sortedYears dividends).reverse with
    | [] => 0
    | y :: ys => 1 + consecRun y ys

/-- The payout-ratio block of `calculate_safety_score`: the sequential
update it performs on the running `score`. -/
def payoutStage (payout_ratio : ℚ) (score : ℤ) : ℤ :=
  if payout_ratio = 0 then score + 0
  else if payout_ratio < 30 then score + 25
  else if payout_ratio < 50 then score + 40
  else if payout_ratio < 70 then score + 30
  else if payout_ratio < 90 then score + 15
  else score - 10

/-- The consecutive-years block of `calculate_safety_score`. -/
def yearsStage (consecutive_years : ℕ) (score : ℤ) : ℤ :=
  if consecutive_years ≥ 25 then score + 30
  else if consecutive_years ≥ 10 then score + 20
  else if consecutive_years ≥ 5 then score + 10
  else if consecutive_years ≥ 2 then score + 5
  else score

/-- The growth-rate block of `calculate_safety_score`. -/
def growthStage (growth_rate : ℚ) (score : ℤ) : ℤ :=
  if growth_rate > 10 then score + 20
  else if growth_rate > 5 then score + 15
  else if growth_rate > 0 then score + 10
  else if growth_rate > -5 then score + 0
  else score - 10

/-- The dividend-yield block of `calculate_safety_score`. -/
def yieldStage (dividend_yield : ℚ) (score : ℤ) : ℤ :=
  if dividend_yield > 0.10 then score - 15
  else if dividend_yield > 0.08 then score - 5
  else score

/-- `calculate_safety_score`: score starts at 50, the four blocks update it
in sequence, and the result is clamped with `max(0, min(100, score))`. -/
def calculate_safety_score (payout_ratio : ℚ) (consecutive_years : ℕ)
    (growth_rate : ℚ) (dividend_yield : ℚ) : ℤ :=
  max 0 (min 100
    (yieldStage dividend_yield
      (growthStage growth_rate
        (yearsStage consecutive_years
          (payoutStage payout_ratio 50)))))

/-- `calculate_rank_score`: unclamped weighted sum of four normalized
component scores. -/
def calculate_rank_score (dividend_yield : ℚ) (growth_rate : ℚ)
    (safety_score : ℤ) (consecutive_years : ℕ) : ℚ :=
  let yield_score := min (dividend_yield * 100 * 10) 100
  let growth_score := min (max (growth_rate + 10) 0 * 5) 100
  let track_score := min ((consecutive_years : ℚ) * 4) 100
  yield_score * 0.35 + growth_score * 0.25 + (safety_score : ℚ) * 0.25
    + track_score * 0.15

/-- The persisted snapshot: fetch timestamp (hours) and the stock list. -/
structure Snapshot where
  fetchedAt : ℚ
  stocks : List StockRec
deriving DecidableEq

/-- `load_cached_snapshot`: the snapshot file contents (`none` when the file
does not exist) and the current time; returns the snapshot only when it is
less than 24 hours old, `none` otherwise. -/
def load_cached_snapshot (file : Option Snapshot) (now : ℚ) : Option Snapshot :=
  match file with
  | none => none
  | some snapshot =>
      if now - snapshot.fetchedAt < 24 then some snapshot else none

/-- Query arguments of `/api/stocks` relevant to filtering and sorting. -/
structure QueryArgs where
  category : Option String
  min_yield : Option ℚ
  max_yield : Option ℚ
  min_safety : Option ℚ
  sector : Option String
  sort_by : String
  limit : ℕ
deriving DecidableEq

/-- One stock passes all the active filters of `apply_filters_and_sort`. -/
def passesFilters (q : QueryArgs) (s : StockRec) : Bool :=
  (match q.category with
   | none => true
   | some c => strField s "category" == some c) &&
  (match q.min_yield with
   | none => true
   | some m => match numField s "dividendYield" with
               | some v => m ≤ v
               | none => false) &&
  (match q.max_yield with
   | none => true
   | some m => match numField s "dividendYield" with
               | some v => v ≤ m
               | none => false) &&
  (match q.min_safety with
   | none => true
   | some m => match numField s "safetyScore" with
               | some v => m ≤ v
               | none => false) &&
  (match q.sector with
   | none => true
   | some sec => match strField s "sector" with
                 | some v => v.toLower == sec.toLower
                 | none => false)

/-- The response shape of `apply_filters_and_sort` and of the
needs-initialization branch of `get_dividend_stocks`. `fetchedAt` is `none`
exactly when the JSON field is `null`; `status` is `none` when the key is
absent from the response dict. -/
structure ListResponse where
  stocks : List StockRec
  total : ℕ
  fetchedAt : Option ℚ
  status : Option String
deriving DecidableEq

/-- `apply_filters_and_sort`: filter, then stable-sort on
`x.get(sort_by, 0) or 0` — descending unless sorting by `ticker` or `name` —
then truncate to `limit`. `now` is the wall-clock time at which the query is
processed (`datetime.now()` in the source). -/
def apply_filters_and_sort (now : ℚ) (stocks : List StockRec)
    (q : QueryArgs) : ListResponse :=
  let filtered := stocks.filter (passesFilters q)
  let reverse : Bool := !(q.sort_by == "ticker" || q.sort_by == "name")
  let sorted := filtered.mergeSort (fun a b =>
    if reverse then vle (sortKeyVal q.sort_by b) (sortKeyVal q.sort_by a)
    else vle (sortKeyVal q.sort_by a) (sortKeyVal q.sort_by b))
  { stocks := sorted.take q.limit
    total := filtered.length
    fetchedAt := some now
    status := none }

/-- The empty payload returned when no usable snapshot exists. -/
def needs_initialization_response : ListResponse :=
  { stocks := [], total := 0, fetchedAt := none,
    status := some "needs_initialization" }

/-- `get_dividend_stocks` (GET `/api/stocks`): result paired with whether a
background refresh was enqueued. Control flow of the source:
`if cached and not force_refresh` serve the cache; `if not cached` return
the needs-initialization payload (no task); `if force_refresh` (reachable
only with a usable cache) enqueue a refresh and serve the cache. -/
def get_dividend_stocks (file : Option Snapshot) (now : ℚ)
    (force_refresh : Bool) (q : QueryArgs) : ListResponse × Bool :=
  match load_cached_snapshot file now with
  | some cached =>
      if !force_refresh then (apply_filters_and_sort now cached.stocks q, false)
      else (apply_filters_and_sort now cached.stocks q, true)
  | none => (needs_initialization_response, false)

/-- One point of the historical trend store, as appended by `save_snapshot`. -/
structure HistPoint where
  date : String
  divYield : ℚ
  price : ℚ
  growthRate : ℚ
  safetyScore : ℚ
deriving DecidableEq

/-- The `ticker` field of a stock record. -/
def tickerOf (s : StockRec) : String :=
  (strField s "ticker").getD ""

/-- The historical point `save_snapshot` builds for one stock on one day. -/
def mkHistPoint (today : String) (s : StockRec) : HistPoint :=
  { date := today
    divYield := (numField s "dividendYield").getD 0
    price := (numField s "price").getD 0
    growthRate := (numField s "growthRate").getD 0
    safetyScore := (numField s "safetyScore").getD 0 }

/-- The persistent server state: the snapshot file and the historical
trend store (per-ticker point lists; a ticker never written maps to `[]`). -/
structure ServerState where
  snapshot : Option Snapshot
  historical : String → List HistPoint

/-- One iteration of the `save_snapshot` loop over `stocks`: append today's
point to this stock's ticker history and re-cap it at 30 entries
(`historical[ticker].append(...)` then `historical[ticker][-30:]`). -/
def histStep (today : String) (h : String → List HistPoint)
    (s : StockRec) : String → List HistPoint :=
  fun t =>
    if t = tickerOf s then takeLast 30 (h (tickerOf s) ++ [mkHistPoint today s])
    else h t

/-- `save_snapshot`: replace the snapshot file with a fresh one stamped
`now`, and for each stock append today's point to its ticker's history,
keeping only the last 30 points. -/
def save_snapshot (now : ℚ) (today : String) (stocks : List StockRec)
    (st : ServerState) : ServerState :=
  { snapshot := some { fetchedAt := now, stocks := stocks }
    historical := stocks.foldl (histStep today) st.historical }

/-- The commit step of `refresh_data_background`: with a non-empty
aggregated result the snapshot is saved (and history appended); with zero
results nothing is written and the old state is kept. -/
def refresh_data_background (all_stocks : List StockRec) (now : ℚ)
    (today : String) (st : ServerState) : ServerState :=
  if all_stocks.isEmpty then st
  else save_snapshot now today all_stocks st

/-! ### Spec-side formulations (written from the specification's tables) -/

/-- Spec §4.2 payout-ratio bucket adjustment. -/
def payoutAdj (p : ℚ) : ℤ :=
  if p = 0 then 0
  else if p < 30 then 25
  else if p < 50 then 40
  else if p < 70 then 30
  else if p < 90 then 15
  else -10

/-- Spec §4.2 consecutive-years bucket adjustment. -/
def yearsAdj (c : ℕ) : ℤ :=
  if c ≥ 25 then 30
  else if c ≥ 10 then 20
  else if c ≥ 5 then 10
  else if c ≥ 2 then 5
  else 0

/-- Spec §4.2 growth-rate bucket adjustment. -/
def growthAdj (g : ℚ) : ℤ :=
  if g > 10 then 20
  else if g > 5 then 15
  else if g > 0 then 10
  else if g > -5 then 0
  else -10

/-- Spec §4.2 dividend-yield bucket adjustment. -/
def yieldAdj (y : ℚ) : ℤ :=
  if y > 0.10 then -15
  else if y > 0.08 then -5
  else 0

/-- Spec §4.2 yield component of the rank score. -/
def yieldScoreSpec (y : ℚ) : ℚ := min (y * 1000) 100

/-- Spec §4.2 growth component of the rank score. -/
def growthScoreSpec (g : ℚ) : ℚ := min (max (g + 10) 0 * 5) 100

/-- Spec §4.2 track-record component of the rank score. -/
def trackScoreSpec (c : ℕ) : ℚ := min ((c : ℚ) * 4) 100

/-! ### Concrete example inputs -/

/-- A default query: the endpoint's default arguments. -/
def qDefault : QueryArgs :=
  { category := none, min_yield := none, max_yield := none,
    min_safety := none, sector := none, sort_by := "rankScore", limit := 100 }

/-- A small concrete stock record. -/
def stockA : StockRec :=
  [("ticker", Val.str "AAA"), ("name", Val.str "Alpha Corp"),
   ("sector", Val.str "Tech"), ("category", Val.str "immediate"),
   ("dividendYield", Val.num 4), ("price", Val.num 100),
   ("growthRate", Val.num 5), ("safetyScore", Val.num 80),
   ("rankScore", Val.num 70)]

/-- A second concrete stock record with a different ticker. -/
def stockB : StockRec :=
  [("ticker", Val.str "BBB"), ("name", Val.str "Beta Inc"),
   ("sector", Val.str "Energy"), ("category", Val.str "balanced"),
   ("dividendYield", Val.num 2), ("price", Val.num 50),
   ("growthRate", Val.num 1), ("safetyScore", Val.num 60),
   ("rankScore", Val.num 55)]

/-- A server state with no snapshot and an empty historical store. -/
def emptyState : ServerState :=
  { snapshot := none, historical := fun _ => [] }

/-- A two-event dividend series with ascending dates and distinct amounts. -/
def exDivs : List DivEvent :=
  [{ date := 1, year := 2020, amount := 1 }, { date := 2, year := 2020, amount := 2 }]

/-- A 12-event series with yearly sums 100 (2021), 110 (2022), 121 (2023). -/
def ex121 : List DivEvent :=
  [{ date := 1, year := 2021, amount := 25 }, { date := 2, year := 2021, amount := 25 },
   { date := 3, year := 2021, amount := 25 }, { date := 4, year := 2021, amount := 25 },
   { date := 5, year := 2022, amount := 30 }, { date := 6, year := 2022, amount := 30 },
   { date := 7, year := 2022, amount := 30 }, { date := 8, year := 2022, amount := 20 },
   { date := 9, year := 2023, amount := 30 }, { date := 10, year := 2023, amount := 30 },
   { date := 11, year := 2023, amount := 30 }, { date := 12, year := 2023, amount := 31 }]

/-- An 8-event series with yearly sums 100 (2022) then 81 (2023): a cut. -/
def exNeg : List DivEvent :=
  [{ date := 1, year := 2022, amount := 25 }, { date := 2, year := 2022, amount := 25 },
   { date := 3, year := 2022, amount := 25 }, { date := 4, year := 2022, amount := 25 },
   { date := 5, year := 2023, amount := 20 }, { date := 6, year := 2023, amount := 20 },
   { date := 7, year := 2023, amount := 20 }, { date := 8, year := 2023, amount := 21 }]

/-- The series has at least one payment dated in year `y`. -/
def hasPaymentInYear (dividends : List DivEvent) (y : ℤ) : Bool :=
  dividends.any (fun e => e.year == y)

/-- Payments in 2024, 2023, 2022 and 2020 — a gap before 2020. -/
def exGap : List DivEvent :=
  [{ date := 1, year := 2024, amount := 1 }, { date := 2, year := 2023, amount := 1 },
   { date := 3, year := 2022, amount := 1 }, { date := 4, year := 2020, amount := 1 }]

/-! ### Helper lemmas about the historical-store fold -/

/-- A ticker not among the written stocks is untouched by the
`save_snapshot` loop. -/
theorem histFold_not_mem (today : String) (l : List StockRec)
    (h : String → List HistPoint) (t : String) (ht : t ∉ l.map tickerOf) :
    l.foldl (histStep today) h t = h t := by
  induction l generalizing h with
  | nil => rfl
  | cons s l ih =>
      simp only [List.map_cons, List.mem_cons, not_or] at ht
      rw [List.foldl_cons, ih _ ht.2]
      simp [histStep, ht.1]

/-- With pairwise-distinct tickers, the `save_snapshot` loop appends exactly
one capped point to each written stock's ticker history. -/
theorem histFold_mem (today : String) (l : List StockRec)
    (h : String → List HistPoint) (hnd : (l.map tickerOf).Nodup)
    (s : StockRec) (hs : s ∈ l) :
    l.foldl (histStep today) h (tickerOf s)
      = takeLast 30 (h (tickerOf s) ++ [mkHistPoint today s]) := by
  induction l generalizing h with
  | nil => cases hs
  | cons a l ih =>
      rw [List.foldl_cons]
      simp only [List.map_cons, List.nodup_cons] at hnd
      rcases List.mem_cons.mp hs with heq | hmem
      · subst heq
        rw [histFold_not_mem today l _ _ hnd.1]
        simp [histStep]
      · have hne : tickerOf s ≠ tickerOf a := by
          intro hcontra
          exact hnd.1 (hcontra ▸ List.mem_map_of_mem tickerOf hmem)
        rw [ih _ hnd.2 hmem]
        simp [histStep, hne]

/-! ### Claim theorems -/

/-- C3: the safety score equals 50 plus exactly the four §4.2 bucket
adjustments (payout, years, growth, yield), clamped to [0, 100]; in
particular the result always lies in [0, 100]. -/
theorem C3_safety_score_buckets (p : ℚ) (c : ℕ) (g y : ℚ) :
    calculate_safety_score p c g y
      = max 0 (min 100 (50 + payoutAdj p + yearsAdj c + growthAdj g + yieldAdj y))
    ∧ 0 ≤ calculate_safety_score p c g y
    ∧ calculate_safety_score p c g y ≤ 100 := by
  have h1 : ∀ s : ℤ, payoutStage p s = s + payoutAdj p := by
    intro s; simp only [payoutStage, payoutAdj]; split_ifs <;> omega
  have h2 : ∀ s : ℤ, yearsStage c s = s + yearsAdj c := by
    intro s; simp only [yearsStage, yearsAdj]; split_ifs <;> omega
  have h3 : ∀ s : ℤ, growthStage g s = s + growthAdj g := by
    intro s; simp only [growthStage, growthAdj]; split_ifs <;> omega
  have h4 : ∀ s : ℤ, yieldStage y s = s + yieldAdj y := by
    intro s; simp only [yieldStage, yieldAdj]; split_ifs <;> omega
  have heq : calculate_safety_score p c g y
      = max 0 (min 100 (50 + payoutAdj p + yearsAdj c + growthAdj g + yieldAdj y)) := by
    simp only [calculate_safety_score, h1, h2, h3, h4]
  refine ⟨heq, ?_, ?_⟩ <;> rw [heq] <;> omega

/-- C7: the rank score is the unclamped weighted sum
0.35·yieldScore + 0.25·growthScore + 0.25·safetyScore + 0.15·trackScore
with the §4.2 component formulas. -/
theorem C7_rank_score_weighted_sum (y g : ℚ) (s : ℤ) (c : ℕ) :
    calculate_rank_score y g s c
      = 0.35 * yieldScoreSpec y + 0.25 * growthScoreSpec g
        + 0.25 * (s : ℚ) + 0.15 * trackScoreSpec c := by
  simp only [calculate_rank_score, yieldScoreSpec, growthScoreSpec, trackScoreSpec]
  rw [show (y * 100 * 10 : ℚ) = y * 1000 by ring]
  ring

/-- C1: a refresh run that aggregates zero usable records commits nothing —
the snapshot and the entire historical trend store are left unchanged; a run
with at least one record replaces the snapshot, appends exactly one capped
point per covered ticker, and leaves uncovered tickers untouched. -/
theorem C1_empty_refresh_commits_nothing (st : ServerState) (now : ℚ)
    (today : String) :
    refresh_data_background [] now today st = st
    ∧ ∀ stocks : List StockRec, stocks ≠ [] → (stocks.map tickerOf).Nodup →
        (refresh_data_background stocks now today st).snapshot
            = some { fetchedAt := now, stocks := stocks }
        ∧ (∀ s ∈ stocks,
            (refresh_data_background stocks now today st).historical (tickerOf s)
              = takeLast 30 (st.historical (tickerOf s) ++ [mkHistPoint today s]))
        ∧ (∀ t, t ∉ stocks.map tickerOf →
            (refresh_data_background stocks now today st).historical t
              = st.historical t) := by
  constructor
  · rfl
  · intro stocks hne hnd
    have hstep : refresh_data_background stocks now today st
        = save_snapshot now today stocks st := by
      simp [refresh_data_background, List.isEmpty_iff, hne]
    refine ⟨by rw [hstep]; rfl, ?_, ?_⟩
    · intro s hs
      rw [hstep]
      exact histFold_mem today stocks st.historical hnd s hs
    · intro t ht
      rw [hstep]
      exact histFold_not_mem today stocks st.historical t ht

/-- Witness for C1: a concrete two-stock commit over the empty state. -/
theorem C1_witness :
    (refresh_data_background [stockA, stockB] 5 "2026-10-12" emptyState).snapshot
        = some { fetchedAt := 5, stocks := [stockA, stockB] }
    ∧ (refresh_data_background [stockA, stockB] 5 "2026-10-12" emptyState).historical
        (tickerOf stockA)
        = takeLast 30 (emptyState.historical (tickerOf stockA)
            ++ [mkHistPoint "2026-10-12" stockA]) := by
  have h := (C1_empty_refresh_commits_nothing emptyState 5 "2026-10-12").2
    [stockA, stockB] (by simp) (by decide)
  exact ⟨h.1, h.2.1 stockA (by simp)⟩

/-- C2 counterexample: a snapshot fetched at hour 0 queried at hour 25
(stale) and an absent snapshot produce the very same response — the read
path does not distinguish "no data ever fetched" from "data is old". -/
theorem C2_counterexample :
    get_dividend_stocks (some { fetchedAt := 0, stocks := [stockA] }) 25 false qDefault
      = get_dividend_stocks none 25 false qDefault
    ∧ get_dividend_stocks none 25 false qDefault
      = (needs_initialization_response, false) := by
  constructor
  · norm_num [get_dividend_stocks, load_cached_snapshot]
  · rfl

/-- C2 (amended): a snapshot at least 24 hours old is treated exactly like
an absent one — every read returns the identical `needs_initialization`
payload in both cases, so the read path distinguishes usable from unusable
snapshots but not "never fetched" from "stale". -/
theorem C2_stale_indistinguishable_from_absent (snap : Snapshot) (now : ℚ)
    (force : Bool) (q : QueryArgs) (hstale : 24 ≤ now - snap.fetchedAt) :
    get_dividend_stocks (some snap) now force q
      = (needs_initialization_response, false)
    ∧ get_dividend_stocks (some snap) now force q
      = get_dividend_stocks none now force q := by
  have hload : load_cached_snapshot (some snap) now = none := by
    simp [load_cached_snapshot, not_lt.mpr hstale]
  have hnone : load_cached_snapshot none now = none := rfl
  constructor
  · simp [get_dividend_stocks, hload]
  · simp [get_dividend_stocks, hload, hnone]

/-- Witness for C2's amended statement at a concrete stale snapshot. -/
theorem C2_witness :
    get_dividend_stocks (some { fetchedAt := 0, stocks := [stockB] }) 30 true qDefault
      = (needs_initialization_response, false) :=
  (C2_stale_indistinguishable_from_absent
    { fetchedAt := 0, stocks := [stockB] } 30 true qDefault (by norm_num)).1

/-- C9: with no usable snapshot (absent file or a fetch at least 24 hours
old) the endpoint answers the empty needs-initialization payload and never
enqueues a background refresh, even under `force_refresh`; an enqueued
refresh implies a usable snapshot existed and `force_refresh` was set. -/
theorem C9_needs_init_never_refreshes (file : Option Snapshot) (now : ℚ)
    (q : QueryArgs) :
    (∀ force, load_cached_snapshot file now = none →
        get_dividend_stocks file now force q
          = (needs_initialization_response, false))
    ∧ (∀ force, (get_dividend_stocks file now force q).2 = true →
        load_cached_snapshot file now ≠ none ∧ force = true) := by
  constructor
  · intro force hload
    simp [get_dividend_stocks, hload]
  · intro force henq
    cases hload : load_cached_snapshot file now with
    | none => simp [get_dividend_stocks, hload] at henq
    | some cached =>
        cases force with
        | false => simp [get_dividend_stocks, hload] at henq
        | true => exact ⟨by simp [hload], rfl⟩

/-- Witness for C9: `force_refresh = true` with no snapshot file still
yields the needs-initialization payload and no enqueued task. -/
theorem C9_witness :
    get_dividend_stocks none 7 true qDefault
      = (needs_initialization_response, false) :=
  (C9_needs_init_never_refreshes none 7 qDefault).1 true rfl

/-- C10: every cache-served response stamps `fetchedAt` with the time the
query itself was processed, so two queries at different times over the same
unchanged snapshot report different `fetchedAt` values. -/
theorem C10_fetchedAt_is_query_time (file : Option Snapshot) (now : ℚ)
    (force : Bool) (q : QueryArgs) (snap : Snapshot)
    (hc : load_cached_snapshot file now = some snap) :
    (get_dividend_stocks file now force q).1.fetchedAt = some now
    ∧ ∀ now2 force2 q2 snap2, load_cached_snapshot file now2 = some snap2 →
        now ≠ now2 →
        (get_dividend_stocks file now force q).1.fetchedAt
          ≠ (get_dividend_stocks file now2 force2 q2).1.fetchedAt := by
  have hstamp : ∀ (now' : ℚ) (force' : Bool) (q' : QueryArgs) (snap' : Snapshot),
      load_cached_snapshot file now' = some snap' →
      (get_dividend_stocks file now' force' q').1.fetchedAt = some now' := by
    intro now' force' q' snap' hc'
    cases force' <;> simp [get_dividend_stocks, hc', apply_filters_and_sort]
  refine ⟨hstamp now force q snap hc, ?_⟩
  intro now2 force2 q2 snap2 hc2 hne
  rw [hstamp now force q snap hc, hstamp now2 force2 q2 snap2 hc2]
  simp [hne]

/-- Witness for C10: the same snapshot served at hours 1 and 2 reports
`fetchedAt` 1 and 2 respectively. -/
theorem C10_witness :
    (get_dividend_stocks (some { fetchedAt := 0, stocks := [stockA] }) 1 false
        qDefault).1.fetchedAt = some 1
    ∧ (get_dividend_stocks (some { fetchedAt := 0, stocks := [stockA] }) 1 false
        qDefault).1.fetchedAt
      ≠ (get_dividend_stocks (some { fetchedAt := 0, stocks := [stockA] }) 2 false
        qDefault).1.fetchedAt := by
  have h := C10_fetchedAt_is_query_time
    (some { fetchedAt := 0, stocks := [stockA] }) 1 false qDefault
    { fetchedAt := 0, stocks := [stockA] } (by norm_num [load_cached_snapshot])
  exact ⟨h.1, h.2 2 false qDefault { fetchedAt := 0, stocks := [stockA] }
    (by norm_num [load_cached_snapshot]) (by norm_num)⟩

/-- C4 counterexample: for an ascending two-event series the stored
`dividendHistory` keeps the provider's ascending order — the most recent
event is stored last, not first, refuting "most recent first". -/
theorem C4_counterexample :
    dividend_history exDivs = [(1, 1), (2, 2)]
    ∧ dividend_history exDivs ≠ [(2, 2), (1, 1)] := by
  refine ⟨rfl, ?_⟩
  norm_num [dividend_history, takeLast, exDivs]

/-- C4 (amended): the stored `dividendHistory` is the suffix of the fetched
series holding its at-most-400 most recent events (every dropped event's
date is at most every kept event's date), and the storage order is the
provider's date-ascending order — most recent last. -/
theorem C4_history_is_recent_suffix_ascending (dividends : List DivEvent)
    (hsorted : (dividends.map DivEvent.date).Sorted (· ≤ ·)) :
    dividends
        = dividends.take (dividends.length - 400) ++ takeLast 400 dividends
    ∧ (dividend_history dividends).length = min 400 dividends.length
    ∧ ((dividend_history dividends).map Prod.fst).Sorted (· ≤ ·)
    ∧ ∀ e ∈ dividends.take (dividends.length - 400),
        ∀ k ∈ takeLast 400 dividends, e.date ≤ k.date := by
  have hdec : ((dividend_history dividends).map Prod.fst)
      = (dividends.map DivEvent.date).drop (dividends.length - 400) := by
    simp only [dividend_history, takeLast, List.map_map, List.map_drop]
    rfl
  refine ⟨?_, ?_, ?_, ?_⟩
  · rw [takeLast]
    exact (List.take_append_drop _ _).symm
  · simp only [dividend_history, takeLast, List.length_map, List.length_drop]
    omega
  · rw [hdec]
    exact List.Pairwise.sublist (List.drop_sublist _ _) hsorted
  · intro e he k hk
    have hsplit := hsorted
    rw [← List.take_append_drop (dividends.length - 400)
      (dividends.map DivEvent.date)] at hsplit
    refine (List.pairwise_append.mp hsplit).2.2 e.date ?_ k.date ?_
    · rw [← List.map_take]
      exact List.mem_map_of_mem DivEvent.date he
    · rw [← List.map_drop]
      exact List.mem_map_of_mem DivEvent.date hk

/-- Witness for C4's amended statement on the concrete two-event series. -/
theorem C4_witness :
    (dividend_history exDivs).length = min 400 exDivs.length
    ∧ ((dividend_history exDivs).map Prod.fst).Sorted (· ≤ ·) := by
  have h := C4_history_is_recent_suffix_ascending exDivs (by decide)
  exact ⟨h.2.1, h.2.2.1⟩

/-! ### Order properties of the dynamic-value comparison -/

/-- `vle` is total. -/
theorem vle_total (a b : Val) : vle a b = true ∨ vle b a = true := by
  cases a <;> cases b <;> simp [vle] <;> exact le_total _ _

/-- `vle` is transitive. -/
theorem vle_trans {a b c : Val} (h1 : vle a b = true) (h2 : vle b c = true) :
    vle a c = true := by
  cases a <;> cases b <;> cases c <;> simp [vle] at h1 h2 ⊢ <;>
    exact le_trans h1 h2

/-- The descending merge sort of `apply_filters_and_sort` yields a list
whose keys are pairwise non-increasing. -/
theorem mergeSort_desc_pairwise (k : StockRec → Val) (l : List StockRec) :
    (l.mergeSort (fun a b => vle (k b) (k a))).Pairwise
      (fun a b => vle (k b) (k a) = true) := by
  apply List.sorted_mergeSort
  · intro a b c h1 h2
    exact vle_trans h2 h1
  · intro a b
    rcases vle_total (k a) (k b) with h | h <;> simp [h]

/-- The ascending merge sort yields pairwise non-decreasing keys. -/
theorem mergeSort_asc_pairwise (k : StockRec → Val) (l : List StockRec) :
    (l.mergeSort (fun a b => vle (k a) (k b))).Pairwise
      (fun a b => vle (k a) (k b) = true) := by
  apply List.sorted_mergeSort
  · intro a b c h1 h2
    exact vle_trans h1 h2
  · intro a b
    rcases vle_total (k a) (k b) with h | h <;> simp [h]

/-- C8 counterexample: sorting by `growthRate` descending places a record
that lacks the field (key defaults to 0) ABOVE a record whose growth rate
is −5 — a missing value does not sort as the lowest possible value. -/
theorem C8_counterexample :
    (apply_filters_and_sort 0
        [[("ticker", Val.str "NEG"), ("growthRate", Val.num (-5))],
         [("ticker", Val.str "MIS")]]
        { category := none, min_yield := none, max_yield := none,
          min_safety := none, sector := none,
          sort_by := "growthRate", limit := 100 }).stocks
      = [[("ticker", Val.str "MIS")],
         [("ticker", Val.str "NEG"), ("growthRate", Val.num (-5))]]
    ∧ getField [("ticker", Val.str "MIS")] "growthRate" = none
    ∧ sortKeyVal "growthRate"
        [("ticker", Val.str "NEG"), ("growthRate", Val.num (-5))]
      = Val.num (-5) := by
  refine ⟨?_, rfl, by decide⟩
  norm_num [apply_filters_and_sort, passesFilters, List.mergeSort, List.merge,
    sortKeyVal, getField, falsyVal, vle, List.lookup]
  decide

/-- C8 (amended): `apply_filters_and_sort` always returns a result whose
records are sorted on the requested field — ascending for the identifier
fields `ticker`/`name`, descending otherwise — under the key
`x.get(sort_by, 0) or 0`, which replaces a missing (or falsy) sort-field
value by the number 0, not by the lowest possible value of the field's
type. -/
theorem C8_sorted_by_requested_field (now : ℚ) (stocks : List StockRec)
    (q : QueryArgs) :
    (q.sort_by = "ticker" ∨ q.sort_by = "name" →
      ((apply_filters_and_sort now stocks q).stocks.map
        (sortKeyVal q.sort_by)).Pairwise (fun a b => vle a b = true))
    ∧ (¬ (q.sort_by = "ticker" ∨ q.sort_by = "name") →
      ((apply_filters_and_sort now stocks q).stocks.map
        (sortKeyVal q.sort_by)).Pairwise (fun a b => vle b a = true)) := by
  constructor
  · intro h
    have hrev : (!(q.sort_by == "ticker" || q.sort_by == "name")) = false := by
      rcases h with h | h <;> rw [h] <;> rfl
    have hsorted := mergeSort_asc_pairwise (sortKeyVal q.sort_by)
      (stocks.filter (passesFilters q))
    have htake := List.Pairwise.sublist (List.take_sublist q.limit _) hsorted
    have hmap := (@List.pairwise_map StockRec Val (sortKeyVal q.sort_by)
      (fun x y => vle x y = true) _).mpr htake
    simpa [apply_filters_and_sort, hrev] using hmap
  · intro h
    have hrev : (!(q.sort_by == "ticker" || q.sort_by == "name")) = true := by
      rcases not_or.mp h with ⟨h1, h2⟩
      simp [h1, h2]
    have hsorted := mergeSort_desc_pairwise (sortKeyVal q.sort_by)
      (stocks.filter (passesFilters q))
    have htake := List.Pairwise.sublist (List.take_sublist q.limit _) hsorted
    have hmap := (@List.pairwise_map StockRec Val (sortKeyVal q.sort_by)
      (fun x y => vle y x = true) _).mpr htake
    simpa [apply_filters_and_sort, hrev] using hmap

/-- Witness for C8's amended statement: the default `rankScore` sort over
two concrete records is key-descending. -/
theorem C8_witness :
    ((apply_filters_and_sort 0 [stockB, stockA] qDefault).stocks.map
      (sortKeyVal qDefault.sort_by)).Pairwise (fun a b => vle b a = true) :=
  (C8_sorted_by_requested_field 0 [stockB, stockA] qDefault).2 (by decide)

/-- C5: the dividend growth rate is 0 for under 4 events or under 2 distinct
years; otherwise, over the most recent at-most-5 yearly sums with earliest
value `start`, latest value `end` and `n` = window length − 1, it is 0 when
`start ≤ 0` or `n ≤ 0` and `((end/start)^(1/n) − 1) × 100` otherwise; yearly
sums [100, 110, 121] give exactly 10, and a cut to 81 gives −19. -/
theorem C5_growth_rate_cases :
    (∀ dividends : List DivEvent, dividends.length < 4 →
        calculate_dividend_growth dividends = 0)
    ∧ (∀ dividends : List DivEvent, (yearlySums dividends).length < 2 →
        calculate_dividend_growth dividends = 0)
    ∧ (∀ dividends : List DivEvent,
        ¬ dividends.length < 4 → ¬ (yearlySums dividends).length < 2 →
        ((((takeLast 5 (yearlySums dividends)).headD (0, 0)).2 ≤ 0 ∨
            (takeLast 5 (yearlySums dividends)).length - 1 = 0 →
          calculate_dividend_growth dividends = 0)
        ∧ (¬ ((((takeLast 5 (yearlySums dividends)).headD (0, 0)).2 ≤ 0) ∨
              (takeLast 5 (yearlySums dividends)).length - 1 = 0) →
          calculate_dividend_growth dividends
            = (((((takeLast 5 (yearlySums dividends)).getLastD (0, 0)).2 : ℝ)
                  / (((takeLast 5 (yearlySums dividends)).headD (0, 0)).2 : ℝ))
                ^ ((1 : ℝ)
                    / (((takeLast 5 (yearlySums dividends)).length - 1 : ℕ) : ℝ))
                - 1) * 100)))
    ∧ calculate_dividend_growth ex121 = 10
    ∧ calculate_dividend_growth exNeg = -19 := by
  have hyears121 : sortedYears ex121 = [2021, 2022, 2023] := by decide
  have hys121 : yearlySums ex121 = [(2021, 100), (2022, 110), (2023, 121)] := by
    rw [yearlySums, hyears121]
    norm_num [ex121]
  have hyearsNeg : sortedYears exNeg = [2022, 2023] := by decide
  have hysNeg : yearlySums exNeg = [(2022, 100), (2023, 81)] := by
    rw [yearlySums, hyearsNeg]
    norm_num [exNeg]
  refine ⟨?_, ?_, ?_, ?_, ?_⟩
  · intro d h
    simp [calculate_dividend_growth, h]
  · intro d h
    by_cases h4 : d.length < 4 <;> simp [calculate_dividend_growth, h4, h]
  · intro d h4 h2
    constructor
    · intro hz
      simp only [calculate_dividend_growth]
      rw [if_neg h4, if_neg h2, if_pos hz]
    · intro hz
      simp only [calculate_dividend_growth]
      rw [if_neg h4, if_neg h2, if_neg hz]
  · have hpow : ((121 : ℝ) / 100) ^ ((1 : ℝ) / 2) = 11 / 10 := by
      rw [show ((121 : ℝ) / 100) = (11 / 10 : ℝ) ^ (2 : ℕ) by norm_num]
      rw [show ((1 : ℝ) / 2) = (((2 : ℕ) : ℝ))⁻¹ by norm_num]
      exact Real.pow_rpow_inv_natCast (by norm_num) (by norm_num)
    rw [calculate_dividend_growth]
    rw [if_neg (by decide)]
    simp only [hys121]
    rw [if_neg (by norm_num)]
    simp only [takeLast]
    norm_num [hpow]
  · rw [calculate_dividend_growth]
    rw [if_neg (by decide)]
    simp only [hysNeg]
    rw [if_neg (by norm_num)]
    simp only [takeLast]
    norm_num [Real.rpow_one]

/-- Witness for C5: a two-event series (fewer than 4 events) has growth 0. -/
theorem C5_witness : calculate_dividend_growth exDivs = 0 :=
  C5_growth_rate_cases.1 exDivs (by decide)

/-- A year is a year of the series iff it is in `sortedYears`. -/
theorem mem_sortedYears_iff (dividends : List DivEvent) (z : ℤ) :
    z ∈ sortedYears dividends ↔ hasPaymentInYear dividends z = true := by
  rw [sortedYears, (List.perm_insertionSort _ _).mem_iff, List.mem_dedup,
    List.mem_map]
  simp [hasPaymentInYear, List.any_eq_true]

/-- The descending year list walked by `calculate_consecutive_years` is
strictly descending. -/
theorem sortedYears_reverse_strict_desc (dividends : List DivEvent) :
    ((sortedYears dividends).reverse).Pairwise (fun a b => b < a) := by
  rw [List.pairwise_reverse]
  have hnd : (sortedYears dividends).Nodup :=
    (List.perm_insertionSort _ _).symm.nodup (List.nodup_dedup _)
  have hs : (sortedYears dividends).Sorted (· ≤ ·) :=
    List.sorted_insertionSort _ _
  exact List.Sorted.lt_of_le hs hnd

/-- Characterization of the `calculate_consecutive_years` walk: over a
strictly descending year list it visits exactly the years
`y, y−1, …, y−(count−1)`, all present, and stops at the first absent year. -/
theorem consecRun_spec (y : ℤ) (ys : List ℤ)
    (hs : (y :: ys).Pairwise (fun a b => b < a)) :
    (∀ j : ℕ, j < 1 + consecRun y ys → y - (j : ℤ) ∈ y :: ys)
    ∧ y - ((1 + consecRun y ys : ℕ) : ℤ) ∉ y :: ys := by
  induction ys generalizing y with
  | nil =>
      constructor
      · intro j hj
        have h0 : consecRun y ([] : List ℤ) = 0 := rfl
        have hj0 : j = 0 := by omega
        subst hj0
        simp
      · simp only [consecRun]
        intro hcontra
        have : y - ((1 + 0 : ℕ) : ℤ) = y := List.mem_singleton.mp hcontra
        omega
  | cons z zs ih =>
      obtain ⟨hy, htl⟩ := List.pairwise_cons.mp hs
      by_cases hz1 : y - z = 1
      · have hrun : consecRun y (z :: zs) = 1 + consecRun z zs := by
          simp [consecRun, hz1]
        obtain ⟨ih1, ih2⟩ := ih z htl
        rw [hrun]
        constructor
        · intro j hj
          cases j with
          | zero => simp
          | succ j' =>
              have hj' : j' < 1 + consecRun z zs := by omega
              have hmem := ih1 j' hj'
              have hcast : y - ((j' + 1 : ℕ) : ℤ) = z - (j' : ℤ) := by
                push_cast
                omega
              rw [hcast]
              exact List.mem_cons_of_mem _ hmem
        · intro hcontra
          have hcast : y - ((1 + (1 + consecRun z zs) : ℕ) : ℤ)
              = z - ((1 + consecRun z zs : ℕ) : ℤ) := by
            push_cast
            omega
          rw [hcast] at hcontra
          rcases List.mem_cons.mp hcontra with h | h
          · have hzy : z < y := hy z (List.mem_cons_self _ _)
            have : (0 : ℤ) < ((1 + consecRun z zs : ℕ) : ℤ) := by positivity
            omega
          · exact ih2 h
      · have hrun : consecRun y (z :: zs) = 0 := by
          simp [consecRun, hz1]
        rw [hrun]
        constructor
        · intro j hj
          have hj0 : j = 0 := by omega
          subst hj0
          simp
        · intro hcontra
          have hzy : z < y := hy z (List.mem_cons_self _ _)
          rcases List.mem_cons.mp hcontra with h | h
          · omega
          · rcases List.mem_cons.mp h with h2 | h2
            · push_cast at h2
              omega
            · have hwz : y - ((1 + 0 : ℕ) : ℤ) < z :=
                (List.pairwise_cons.mp htl).1 _ h2
              push_cast at hwz
              omega

/-- C6: the consecutive-years count is the length of the maximal run of
years, starting at the most recent year with a payment and descending by
exactly one, that all have payments — it stops permanently at the first
gap; the empty series gives 0 and years [2024, 2023, 2022, 2020] give 3. -/
theorem C6_consecutive_years_streak :
    calculate_consecutive_years [] = 0
    ∧ (∀ (dividends : List DivEvent) (m : ℤ),
        hasPaymentInYear dividends m = true →
        (∀ e ∈ dividends, e.year ≤ m) →
        (∀ j : ℕ, j < calculate_consecutive_years dividends →
            hasPaymentInYear dividends (m - (j : ℤ)) = true)
        ∧ hasPaymentInYear dividends
            (m - (calculate_consecutive_years dividends : ℤ)) = false)
    ∧ calculate_consecutive_years exGap = 3 := by
  refine ⟨rfl, ?_, by decide⟩
  intro d m hm hmax
  have hdne : d.isEmpty = false := by
    rcases List.any_eq_true.mp hm with ⟨e, he, _⟩
    cases d
    · cases he
    · rfl
  have hmem : ∀ z, z ∈ (sortedYears d).reverse ↔ hasPaymentInYear d z = true := by
    intro z
    rw [List.mem_reverse]
    exact mem_sortedYears_iff d z
  have hdesc := sortedYears_reverse_strict_desc d
  cases hrev : (sortedYears d).reverse with
  | nil =>
      exfalso
      have hmm := (hmem m).mpr hm
      rw [hrev] at hmm
      cases hmm
  | cons y0 ys =>
      have hy0m : y0 = m := by
        have hmmem : m ∈ y0 :: ys := by
          rw [← hrev]
          exact (hmem m).mpr hm
        have hy0pay : hasPaymentInYear d y0 = true := by
          rw [← hmem y0, hrev]
          exact List.mem_cons_self _ _
        rcases List.any_eq_true.mp hy0pay with ⟨e, he, hbe⟩
        have hey : e.year = y0 := by simpa using hbe
        have h1 : y0 ≤ m := hey ▸ hmax e he
        have h2 : m ≤ y0 := by
          rcases List.mem_cons.mp hmmem with h | h
          · omega
          · have := (List.pairwise_cons.mp (hrev ▸ hdesc)).1 m h
            omega
        omega
      subst hy0m
      have hval : calculate_consecutive_years d = 1 + consecRun y0 ys := by
        simp only [calculate_consecutive_years, hdne, hrev]
        rfl
      have hspec := consecRun_spec y0 ys (hrev ▸ hdesc)
      rw [hval]
      constructor
      · intro j hj
        rw [← hmem, hrev]
        exact hspec.1 j hj
      · have hnot : ¬ hasPaymentInYear d
            (y0 - ((1 + consecRun y0 ys : ℕ) : ℤ)) = true := by
          rw [← hmem, hrev]
          exact hspec.2
        cases hb : hasPaymentInYear d (y0 - ((1 + consecRun y0 ys : ℕ) : ℤ))
        · rfl
        · exact absurd hb hnot

/-- Witness for C6 at the gap series: the streak from 2024 covers exactly
2024, 2023, 2022 and stops at the absent 2021. -/
theorem C6_witness :
    (∀ j : ℕ, j < calculate_consecutive_years exGap →
        hasPaymentInYear exGap (2024 - (j : ℤ)) = true)
    ∧ hasPaymentInYear exGap
        (2024 - (calculate_consecutive_years exGap : ℤ)) = false :=
  C6_consecutive_years_streak.2.1 exGap 2024 (by decide) (by decide)

end DividendHunter
